import Mathlib

/-!
Shallow embedding of the date-range core of src/galaxy_dashboard.py:
the Range Computer (get_available_date_range), the Range Validator
(validate_date_range), the Date Filter (filter_dates) and the main
pipeline that wires them together (lines 152-180 of the source).

Timestamps are modelled as natural numbers counting seconds; the
pandas .date() / .dt.date truncation to calendar-date granularity is
division by the number of seconds in a day.  Calendar dates are the
resulting natural numbers.  A dataset is an ordered list of records;
an absent dataset (load failure, `df is None`) is `none`.
-/

namespace GalaxyDashboard

/-- A row of a loaded CSV: the guaranteed timestamp column plus an
abstracted payload standing for the remaining columns. -/
structure Record where
  timestamp : Nat
  payload : Nat
deriving DecidableEq

/-- A present dataset: an ordered sequence of records. -/
abbrev Dataset := List Record

/-- Seconds in a calendar day, for the .date() truncation. -/
def secondsPerDay : Nat := 86400

/-- Truncation of a timestamp to calendar-date granularity, the
embedding of pandas .date() / .dt.date (time-of-day discarded). -/
def toDate (t : Nat) : Nat := t / secondsPerDay

/-- Minimum of a list of timestamps, the embedding of Python min()
and of the pandas column .min(); 0 on the empty list (the sources
only apply it to non-empty lists). -/
def listMin : List Nat → Nat
  | [] => 0
  | t :: ts => ts.foldl min t

/-- Maximum of a list of timestamps, the embedding of Python max()
and of the pandas column .max(); 0 on the empty list. -/
def listMax : List Nat → Nat
  | [] => 0
  | t :: ts => ts.foldl max t

/-- The valid_dates list built by get_available_date_range
(src/galaxy_dashboard.py lines 29-34): for each present, non-empty
dataset, in order, append its minimum timestamp and then its maximum
timestamp. -/
def valid_dates : List (Option Dataset) → List Nat
  | [] => []
  | none :: rest => valid_dates rest
  | some [] :: rest => valid_dates rest
  | some (r :: rs) :: rest =>
      listMin ((r :: rs).map Record.timestamp)
        :: listMax ((r :: rs).map Record.timestamp)
        :: valid_dates rest

/-- get_available_date_range (src/galaxy_dashboard.py lines 28-39):
returns none when no dataset is present and non-empty (the Python
(None, None) pair), and otherwise the pair of the minimum of all
collected timestamps and the maximum of all collected timestamps,
each truncated to a calendar date. -/
def get_available_date_range (dfs : List (Option Dataset)) : Option (Nat × Nat) :=
  match valid_dates dfs with
  | [] => none
  | d :: ds => some (toDate (List.foldl min d ds), toDate (List.foldl max d ds))

/-- The four outcomes of validate_date_range, one per return path of
the Python function: NoData for the `min_date is None` early return,
InvertedRange for the `start > end` return (the st.error branch),
OutsideBounds for the `end < min_date or start > max_date` return
(the st.markdown branch), Ok for the final `return True`. -/
inductive ValidationResult where
  | Ok : ValidationResult
  | InvertedRange : ValidationResult
  | OutsideBounds : ValidationResult
  | NoData : ValidationResult
deriving DecidableEq

/-- validate_date_range (src/galaxy_dashboard.py lines 42-81).  The
Python function takes min_date and max_date separately and tests
`min_date is None`; its only caller passes the pair produced by
get_available_date_range, which is (None, None) or two dates, so the
bounds are embedded as an optional pair.  The checks are performed
in source order: absent bounds first, then inverted range, then the
overlap test. -/
def validate_date_range (start : Nat) (end_ : Nat)
    (bounds : Option (Nat × Nat)) : ValidationResult :=
  match bounds with
  | none => ValidationResult.NoData
  | some (min_date, max_date) =>
    if start > end_ then ValidationResult.InvertedRange
    else if end_ < min_date ∨ start > max_date then ValidationResult.OutsideBounds
    else ValidationResult.Ok

/-- The row predicate of filter_dates: the record's timestamp,
truncated to a calendar date, lies in [start, end] inclusive
(src/galaxy_dashboard.py lines 121-122). -/
def inWindow (start : Nat) (end_ : Nat) (r : Record) : Bool :=
  decide (start ≤ toDate r.timestamp) && decide (toDate r.timestamp ≤ end_)

/-- filter_dates (src/galaxy_dashboard.py lines 117-123): absent
datasets propagate as absent; a present dataset is restricted to the
rows whose calendar date lies in the window, preserving row order. -/
def filter_dates (df : Option Dataset) (start : Nat) (end_ : Nat) : Option Dataset :=
  match df with
  | none => none
  | some rs => some (rs.filter (inWindow start end_))

/-- The main pipeline (src/galaxy_dashboard.py lines 152-180):
compute the global bounds, halt (st.stop) when they are absent,
halt when validation fails, and otherwise apply filter_dates with
the same window uniformly to every dataset.  A halt is none. -/
def pipeline (dfs : List (Option Dataset)) (start : Nat) (end_ : Nat) :
    Option (List (Option Dataset)) :=
  match get_available_date_range dfs with
  | none => none
  | some bounds =>
    if validate_date_range start end_ (some bounds) = ValidationResult.Ok
    then some (dfs.map (fun df => filter_dates df start end_))
    else none

/-- Sublist relation on optional datasets: absent corresponds only
to absent; present datasets are compared with List.Sublist. -/
def optSublist : Option Dataset → Option Dataset → Prop
  | none, none => True
  | some a, some b => List.Sublist a b
  | none, some _ => False
  | some _, none => False

/-! Helper lemmas about the minimum and maximum of a list. -/

theorem foldl_min_le_init (l : List Nat) : ∀ a : Nat, List.foldl min a l ≤ a := by
  induction l with
  | nil => intro a; exact Nat.le_refl a
  | cons b l ih =>
    intro a
    calc List.foldl min (min a b) l ≤ min a b := ih (min a b)
    _ ≤ a := Nat.min_le_left a b

theorem foldl_min_le_mem (l : List Nat) :
    ∀ a x : Nat, x ∈ l → List.foldl min a l ≤ x := by
  induction l with
  | nil => intro a x hx; cases hx
  | cons b l ih =>
    intro a x hx
    rcases List.mem_cons.mp hx with h | h
    · subst h
      calc List.foldl min (min a x) l ≤ min a x := foldl_min_le_init l (min a x)
      _ ≤ x := Nat.min_le_right a x
    · exact ih (min a b) x h

theorem foldl_min_mem (l : List Nat) :
    ∀ a : Nat, List.foldl min a l = a ∨ List.foldl min a l ∈ l := by
  induction l with
  | nil => intro a; exact Or.inl rfl
  | cons b l ih =>
    intro a
    rcases ih (min a b) with h | h
    · rcases Nat.le_total a b with hab | hab
      · left
        rw [List.foldl_cons, h, Nat.min_eq_left hab]
      · right
        rw [List.foldl_cons, h, Nat.min_eq_right hab]
        exact List.mem_cons_self b l
    · right
      exact List.mem_cons_of_mem b h

theorem init_le_foldl_max (l : List Nat) : ∀ a : Nat, a ≤ List.foldl max a l := by
  induction l with
  | nil => intro a; exact Nat.le_refl a
  | cons b l ih =>
    intro a
    calc a ≤ max a b := Nat.le_max_left a b
    _ ≤ List.foldl max (max a b) l := ih (max a b)

theorem mem_le_foldl_max (l : List Nat) :
    ∀ a x : Nat, x ∈ l → x ≤ List.foldl max a l := by
  induction l with
  | nil => intro a x hx; cases hx
  | cons b l ih =>
    intro a x hx
    rcases List.mem_cons.mp hx with h | h
    · subst h
      calc x ≤ max a x := Nat.le_max_right a x
      _ ≤ List.foldl max (max a x) l := init_le_foldl_max l (max a x)
    · exact ih (max a b) x h

theorem foldl_max_mem (l : List Nat) :
    ∀ a : Nat, List.foldl max a l = a ∨ List.foldl max a l ∈ l := by
  induction l with
  | nil => intro a; exact Or.inl rfl
  | cons b l ih =>
    intro a
    rcases ih (max a b) with h | h
    · rcases Nat.le_total a b with hab | hab
      · right
        rw [List.foldl_cons, h, Nat.max_eq_right hab]
        exact List.mem_cons_self b l
      · left
        rw [List.foldl_cons, h, Nat.max_eq_left hab]
    · right
      exact List.mem_cons_of_mem b h

theorem listMin_le (l : List Nat) (x : Nat) (hx : x ∈ l) : listMin l ≤ x := by
  cases l with
  | nil => cases hx
  | cons t ts =>
    rcases List.mem_cons.mp hx with h | h
    · subst h
      exact foldl_min_le_init ts x
    · exact foldl_min_le_mem ts t x h

theorem le_listMax (l : List Nat) (x : Nat) (hx : x ∈ l) : x ≤ listMax l := by
  cases l with
  | nil => cases hx
  | cons t ts =>
    rcases List.mem_cons.mp hx with h | h
    · subst h
      exact init_le_foldl_max ts x
    · exact mem_le_foldl_max ts t x h

theorem listMin_mem (l : List Nat) (h : l ≠ []) : listMin l ∈ l := by
  cases l with
  | nil => exact absurd rfl h
  | cons t ts =>
    rcases foldl_min_mem ts t with h1 | h1
    · rw [listMin, h1]
      exact List.mem_cons_self t ts
    · exact List.mem_cons_of_mem t h1

theorem listMax_mem (l : List Nat) (h : l ≠ []) : listMax l ∈ l := by
  cases l with
  | nil => exact absurd rfl h
  | cons t ts =>
    rcases foldl_max_mem ts t with h1 | h1
    · rw [listMax, h1]
      exact List.mem_cons_self t ts
    · exact List.mem_cons_of_mem t h1

theorem toDate_mono {a b : Nat} (h : a ≤ b) : toDate a ≤ toDate b :=
  Nat.div_le_div_right h

/-! Helper lemmas about valid_dates and get_available_date_range. -/

theorem mem_valid_dates_of_mem (dfs : List (Option Dataset)) (rs : Dataset)
    (h : some rs ∈ dfs) (hne : rs ≠ []) :
    listMin (rs.map Record.timestamp) ∈ valid_dates dfs ∧
      listMax (rs.map Record.timestamp) ∈ valid_dates dfs := by
  induction dfs with
  | nil => cases h
  | cons df rest ih =>
    rcases List.mem_cons.mp h with h1 | h1
    · subst h1
      cases rs with
      | nil => exact absurd rfl hne
      | cons r rs0 =>
        constructor
        · exact List.mem_cons_self _ _
        · exact List.mem_cons_of_mem _ (List.mem_cons_self _ _)
    · have hrest := ih h1
      cases df with
      | none => exact hrest
      | some ds =>
        cases ds with
        | nil => exact hrest
        | cons r rs0 =>
          exact ⟨List.mem_cons_of_mem _ (List.mem_cons_of_mem _ hrest.1),
                 List.mem_cons_of_mem _ (List.mem_cons_of_mem _ hrest.2)⟩

theorem exists_record_of_mem_valid_dates (dfs : List (Option Dataset)) (x : Nat)
    (h : x ∈ valid_dates dfs) :
    ∃ rs, some rs ∈ dfs ∧ x ∈ rs.map Record.timestamp := by
  induction dfs with
  | nil => cases h
  | cons df rest ih =>
    have step : ∀ hx : x ∈ valid_dates rest, ∃ rs, some rs ∈ df :: rest ∧
        x ∈ rs.map Record.timestamp := by
      intro hx
      rcases ih hx with ⟨rs, hmem, hx2⟩
      exact ⟨rs, List.mem_cons_of_mem _ hmem, hx2⟩
    cases df with
    | none => exact step h
    | some ds =>
      cases ds with
      | nil => exact step h
      | cons r rs0 =>
        rcases List.mem_cons.mp h with h1 | h1
        · refine ⟨r :: rs0, List.mem_cons_self _ _, ?_⟩
          rw [h1]
          exact listMin_mem _ (by simp)
        · rcases List.mem_cons.mp h1 with h2 | h2
          · refine ⟨r :: rs0, List.mem_cons_self _ _, ?_⟩
            rw [h2]
            exact listMax_mem _ (by simp)
          · exact step h2

theorem get_available_eq_some (dfs : List (Option Dataset)) (mn mx : Nat)
    (h : get_available_date_range dfs = some (mn, mx)) :
    valid_dates dfs ≠ [] ∧
      mn = toDate (listMin (valid_dates dfs)) ∧
      mx = toDate (listMax (valid_dates dfs)) := by
  unfold get_available_date_range at h
  cases hvd : valid_dates dfs with
  | nil => rw [hvd] at h; cases h
  | cons d ds =>
    rw [hvd] at h
    have h2 := Option.some.inj h
    have hmn := congrArg Prod.fst h2
    have hmx := congrArg Prod.snd h2
    simp only [listMin, listMax]
    exact ⟨by simp, hmn.symm, hmx.symm⟩

theorem get_available_bounds (dfs : List (Option Dataset)) (mn mx : Nat)
    (h : get_available_date_range dfs = some (mn, mx))
    (rs : Dataset) (hmem : some rs ∈ dfs) (r : Record) (hr : r ∈ rs) :
    mn ≤ toDate r.timestamp ∧ toDate r.timestamp ≤ mx := by
  rcases get_available_eq_some dfs mn mx h with ⟨-, hmn, hmx⟩
  have hne : rs ≠ [] := by
    intro hnil
    rw [hnil] at hr
    cases hr
  rcases mem_valid_dates_of_mem dfs rs hmem hne with ⟨hminmem, hmaxmem⟩
  have hts : r.timestamp ∈ rs.map Record.timestamp := List.mem_map_of_mem _ hr
  constructor
  · rw [hmn]
    exact toDate_mono (Nat.le_trans
      (listMin_le _ _ hminmem) (listMin_le _ _ hts))
  · rw [hmx]
    exact toDate_mono (Nat.le_trans
      (le_listMax _ _ hts) (le_listMax _ _ hmaxmem))

theorem validate_some_eq (s e mn mx : Nat) :
    validate_date_range s e (some (mn, mx)) =
      if s > e then ValidationResult.InvertedRange
      else if e < mn ∨ s > mx then ValidationResult.OutsideBounds
      else ValidationResult.Ok := rfl

/-! Claim theorems. -/

/-- C1: for every window (start, end) with start ≤ end and present bounds
(min, max) with min ≤ max, validate_date_range returns OutsideBounds exactly
when end < min or start > max, that condition holds exactly when the window
has zero overlap with the bounds, and validate_date_range returns Ok exactly
when the window has nonzero overlap with the bounds (partial overlap
included). -/
theorem spec_C1 (s e mn mx : Nat) (hse : s ≤ e) (hb : mn ≤ mx) :
    (validate_date_range s e (some (mn, mx)) = ValidationResult.OutsideBounds ↔
      (e < mn ∨ s > mx)) ∧
    ((e < mn ∨ s > mx) ↔ ¬ ∃ d, s ≤ d ∧ d ≤ e ∧ mn ≤ d ∧ d ≤ mx) ∧
    (validate_date_range s e (some (mn, mx)) = ValidationResult.Ok ↔
      ∃ d, s ≤ d ∧ d ≤ e ∧ mn ≤ d ∧ d ≤ mx) := by
  have hover : (e < mn ∨ s > mx) ↔ ¬ ∃ d, s ≤ d ∧ d ≤ e ∧ mn ≤ d ∧ d ≤ mx := by
    constructor
    · rintro h ⟨d, h1, h2, h3, h4⟩
      omega
    · intro h
      by_contra hc
      exact h ⟨max s mn, Nat.le_max_left s mn, by omega, Nat.le_max_right s mn, by omega⟩
  have hnotlt : ¬ s > e := by omega
  rw [validate_some_eq, if_neg hnotlt]
  refine ⟨?_, hover, ?_⟩
  · by_cases hcond : e < mn ∨ s > mx
    · rw [if_pos hcond]
      simp [hcond]
    · rw [if_neg hcond]
      simp [hcond]
  · by_cases hcond : e < mn ∨ s > mx
    · rw [if_pos hcond]
      constructor
      · intro h
        exact absurd h (by decide)
      · intro hex
        exact absurd hex (hover.mp hcond)
    · rw [if_neg hcond]
      constructor
      · intro _
        by_contra hnex
        exact hcond (hover.mpr hnex)
      · intro _
        rfl

/-- Witness for C1 at window (3, 12) and bounds (10, 20): a partial
overlap, accepted as Ok. -/
theorem spec_C1_witness :
    validate_date_range 3 12 (some (10, 20)) = ValidationResult.Ok :=
  (spec_C1 3 12 10 20 (by decide) (by decide)).2.2.mpr
    ⟨10, by decide, by decide, by decide, by decide⟩

/-- C2 counterexample: with bounds absent and an inverted window
(start 5 > end 3), validate_date_range returns NoData, not
InvertedRange — the absence check precedes the inverted-range check,
so the claim that InvertedRange is returned even when bounds are
absent is false. -/
theorem spec_C2_cex :
    ¬ validate_date_range 5 3 none = ValidationResult.InvertedRange := by
  decide

/-- C2 amended: for every window with start > end and PRESENT bounds,
validate_date_range returns InvertedRange independently of the bound
values, so InvertedRange takes precedence over OutsideBounds when both
conditions hold; when bounds are absent, validate_date_range returns
NoData even for an inverted window, because the no-data check is
performed first. -/
theorem spec_C2 (s e mn mx : Nat) (h : s > e) :
    validate_date_range s e (some (mn, mx)) = ValidationResult.InvertedRange ∧
    validate_date_range s e none = ValidationResult.NoData := by
  constructor
  · rw [validate_some_eq, if_pos h]
  · rfl

/-- Witness for C2 at the inverted window (5, 3) with bounds (0, 1),
where the outside-bounds condition 3 < 0 or 5 > 1 also holds. -/
theorem spec_C2_witness :
    validate_date_range 5 3 (some (0, 1)) = ValidationResult.InvertedRange ∧
    validate_date_range 5 3 none = ValidationResult.NoData :=
  spec_C2 5 3 0 1 (by decide)

/-- C5: for every present dataset and every window (start, end),
filter_dates returns a present result that is a sublist of the input
(same relative order) and whose members are exactly the records of the
input whose calendar date d satisfies start ≤ d ≤ end, inclusive on
both ends. -/
theorem spec_C5 (rs : Dataset) (s e : Nat) :
    ∃ out, filter_dates (some rs) s e = some out ∧
      List.Sublist out rs ∧
      ∀ r : Record, r ∈ out ↔
        r ∈ rs ∧ s ≤ toDate r.timestamp ∧ toDate r.timestamp ≤ e := by
  refine ⟨rs.filter (inWindow s e), rfl, List.filter_sublist rs, ?_⟩
  intro r
  rw [List.mem_filter]
  unfold inWindow
  simp [and_assoc]

/-- C7: for every window, filter_dates applied to an absent dataset
returns absent; absence propagates and no error is raised. -/
theorem spec_C7 (s e : Nat) : filter_dates none s e = none := rfl

/-- C8: filter_dates is idempotent: filtering an already-filtered
dataset (present or absent) with the same window changes nothing. -/
theorem spec_C8 (df : Option Dataset) (s e : Nat) :
    filter_dates (filter_dates df s e) s e = filter_dates df s e := by
  cases df with
  | none => rfl
  | some rs =>
    show some ((rs.filter (inWindow s e)).filter (inWindow s e)) =
      some (rs.filter (inWindow s e))
    congr 1
    exact List.filter_eq_self.mpr (fun a ha => (List.mem_filter.mp ha).2)

/-- C9: filter_dates is monotone in the window: if W2 is contained in
W1 then filtering any dataset (present or absent) by W2 produces a
subsequence of the result of filtering it by W1. -/
theorem spec_C9 (df : Option Dataset) (s1 e1 s2 e2 : Nat)
    (hs : s1 ≤ s2) (he : e2 ≤ e1) :
    optSublist (filter_dates df s2 e2) (filter_dates df s1 e1) := by
  cases df with
  | none => trivial
  | some rs =>
    show List.Sublist (rs.filter (inWindow s2 e2)) (rs.filter (inWindow s1 e1))
    apply List.monotone_filter_right
    intro r hr
    unfold inWindow at hr ⊢
    simp only [Bool.and_eq_true, decide_eq_true_eq] at hr ⊢
    omega

/-- Witness for C9: the window (2, 2) inside (1, 3) applied to a
two-record dataset whose record dates are 1 and 2. -/
theorem spec_C9_witness :
    optSublist (filter_dates (some [Record.mk 100000 0, Record.mk 200000 1]) 2 2)
      (filter_dates (some [Record.mk 100000 0, Record.mk 200000 1]) 1 3) :=
  spec_C9 (some [Record.mk 100000 0, Record.mk 200000 1]) 1 3 2 2
    (by decide) (by decide)

/-- C3: for every non-empty collection of present, non-empty datasets,
get_available_date_range returns bounds (mn, mx) with mn at most every
dataset's minimum timestamp and mx at least every dataset's maximum
timestamp, both compared at the calendar-date granularity to which the
bounds are truncated. -/
theorem spec_C3 (dfs : List (Option Dataset)) (hne : dfs ≠ [])
    (hall : ∀ df ∈ dfs, ∃ rs, df = some rs ∧ rs ≠ []) :
    ∃ mn mx, get_available_date_range dfs = some (mn, mx) ∧
      ∀ rs, some rs ∈ dfs →
        mn ≤ toDate (listMin (rs.map Record.timestamp)) ∧
        toDate (listMax (rs.map Record.timestamp)) ≤ mx := by
  have hvd : valid_dates dfs ≠ [] := by
    cases dfs with
    | nil => exact absurd rfl hne
    | cons df rest =>
      rcases hall df (List.mem_cons_self df rest) with ⟨rs, hdf, hrs⟩
      subst hdf
      cases rs with
      | nil => exact absurd rfl hrs
      | cons r rs0 => simp [valid_dates]
  cases hvd2 : valid_dates dfs with
  | nil => exact absurd hvd2 hvd
  | cons d ds =>
    refine ⟨toDate (List.foldl min d ds), toDate (List.foldl max d ds), ?_, ?_⟩
    · unfold get_available_date_range
      rw [hvd2]
    · intro rs hmem
      rcases hall (some rs) hmem with ⟨rs2, heq, hrs2⟩
      have hrsne : rs ≠ [] := by
        injection heq with h
        rw [h]
        exact hrs2
      rcases mem_valid_dates_of_mem dfs rs hmem hrsne with ⟨h1, h2⟩
      rw [hvd2] at h1 h2
      constructor
      · exact toDate_mono (listMin_le (d :: ds) _ h1)
      · exact toDate_mono (le_listMax (d :: ds) _ h2)

/-- Witness for C3: a one-element collection holding one present
one-record dataset with timestamp 5 (calendar date 0). -/
theorem spec_C3_witness :
    ∃ mn mx, get_available_date_range [some [Record.mk 5 0]] = some (mn, mx) ∧
      ∀ rs, some rs ∈ [some [Record.mk 5 0]] →
        mn ≤ toDate (listMin (rs.map Record.timestamp)) ∧
        toDate (listMax (rs.map Record.timestamp)) ≤ mx :=
  spec_C3 [some [Record.mk 5 0]] (by decide) (by
    intro df hdf
    rw [List.mem_singleton] at hdf
    subst hdf
    exact ⟨[Record.mk 5 0], rfl, by decide⟩)

/-- C6: when every dataset of the collection is absent or empty,
get_available_date_range returns the explicit no-bounds result (none,
the Python (None, None)) rather than raising, and the pipeline halts
on it for every window: no filtering is performed. -/
theorem spec_C6 (dfs : List (Option Dataset)) (s e : Nat)
    (h : ∀ df ∈ dfs, df = none ∨ df = some []) :
    get_available_date_range dfs = none ∧ pipeline dfs s e = none := by
  have hvd : valid_dates dfs = [] := by
    induction dfs with
    | nil => rfl
    | cons df rest ih =>
      have hrest := ih (fun d hd => h d (List.mem_cons_of_mem df hd))
      rcases h df (List.mem_cons_self df rest) with h1 | h1
      · subst h1
        exact hrest
      · subst h1
        exact hrest
  have hga : get_available_date_range dfs = none := by
    unfold get_available_date_range
    rw [hvd]
  refine ⟨hga, ?_⟩
  unfold pipeline
  rw [hga]

/-- Witness for C6: the two-absent-datasets collection of the spec's
own example, with the window (0, 5). -/
theorem spec_C6_witness :
    get_available_date_range [none, none] = none ∧
      pipeline [none, none] 0 5 = none :=
  spec_C6 [none, none] 0 5 (by decide)

/-- C10: filtering any present dataset of a collection with the window
equal to the collection's computed bounds returns that dataset
unchanged. -/
theorem spec_C10 (dfs : List (Option Dataset)) (mn mx : Nat) (rs : Dataset)
    (hb : get_available_date_range dfs = some (mn, mx))
    (hmem : some rs ∈ dfs) :
    filter_dates (some rs) mn mx = some rs := by
  show some (rs.filter (inWindow mn mx)) = some rs
  congr 1
  apply List.filter_eq_self.mpr
  intro r hr
  have hbound := get_available_bounds dfs mn mx hb rs hmem r hr
  unfold inWindow
  simp only [Bool.and_eq_true, decide_eq_true_eq]
  exact hbound

/-- Witness for C10: the one-dataset collection with timestamp 5,
whose bounds are (0, 0). -/
theorem spec_C10_witness :
    filter_dates (some [Record.mk 5 0]) 0 0 = some [Record.mk 5 0] :=
  spec_C10 [some [Record.mk 5 0]] 0 0 [Record.mk 5 0] (by decide) (by decide)

/-- C4 counterexample: a collection holding one dataset with records
at calendar dates 0 and 10 has bounds (0, 10); the window (5, 7)
overlaps the bounds and is accepted (Ok), yet filtering the dataset
with that window yields an empty result, so acceptance does not
guarantee a non-empty filtered result. -/
theorem spec_C4_cex :
    get_available_date_range [some [Record.mk 0 0, Record.mk 864000 1]] =
        some (0, 10) ∧
      validate_date_range 5 7 (some (0, 10)) = ValidationResult.Ok ∧
      filter_dates (some [Record.mk 0 0, Record.mk 864000 1]) 5 7 = some [] :=
  ⟨by decide, by decide, by decide⟩

/-- C4 amended: for every collection with present bounds (mn, mx) and
every window accepted by validate_date_range whose start also reaches
the lower bound (start ≤ mn), some present dataset of the collection
yields a non-empty filtered result; acceptance alone (nonzero overlap
with the bounds) does not guarantee this. -/
theorem spec_C4 (dfs : List (Option Dataset)) (s e mn mx : Nat)
    (hb : get_available_date_range dfs = some (mn, mx))
    (hok : validate_date_range s e (some (mn, mx)) = ValidationResult.Ok)
    (hcov : s ≤ mn) :
    ∃ rs out, some rs ∈ dfs ∧ filter_dates (some rs) s e = some out ∧
      out ≠ [] := by
  rcases get_available_eq_some dfs mn mx hb with ⟨hvd, hmn, -⟩
  rw [validate_some_eq] at hok
  by_cases h1 : s > e
  · rw [if_pos h1] at hok
    exact absurd hok (by decide)
  rw [if_neg h1] at hok
  by_cases h2 : e < mn ∨ s > mx
  · rw [if_pos h2] at hok
    exact absurd hok (by decide)
  have hmne : mn ≤ e := by omega
  have hminmem : listMin (valid_dates dfs) ∈ valid_dates dfs :=
    listMin_mem _ hvd
  rcases exists_record_of_mem_valid_dates dfs _ hminmem with ⟨rs, hrsmem, hx⟩
  rcases List.mem_map.mp hx with ⟨r, hr, hts⟩
  have hrmem : r ∈ rs.filter (inWindow s e) := by
    rw [List.mem_filter]
    refine ⟨hr, ?_⟩
    unfold inWindow
    simp only [Bool.and_eq_true, decide_eq_true_eq]
    rw [hts, ← hmn]
    exact ⟨hcov, hmne⟩
  exact ⟨rs, rs.filter (inWindow s e), hrsmem, rfl, List.ne_nil_of_mem hrmem⟩

/-- Witness for C4 amended: a one-record dataset at timestamp 0 with
bounds (0, 0) and the accepted window (0, 0). -/
theorem spec_C4_witness :
    ∃ rs out, some rs ∈ [some [Record.mk 0 0]] ∧
      filter_dates (some rs) 0 0 = some out ∧ out ≠ [] :=
  spec_C4 [some [Record.mk 0 0]] 0 0 0 0 (by decide) (by decide) (by decide)

end GalaxyDashboard
